import Mathlib

/-
Verification of the attention notebooks of `jax-flax-examples`.

The repository implements scaled dot-product attention and its multi-head
generalization in three Flax NNX modules:
  * `SelfAttention`        (selfattention.ipynb)
  * `MaskedSelfAttention`  (the unnamed notebook)
  * `Attention` / `MultiHeadAttention` (multiheadattention.ipynb)

All three share the same numerical core:
    q = X_q @ W_q;  k = X_k @ W_k;  v = X_v @ W_v
    sims = q @ k.swapaxes(row_dim, col_dim)
    scaled_sims = sims / jnp.sqrt(d_model)
    (optionally) scaled_sims = jnp.where(mask, -1e9, scaled_sims)
    attention_percents = jax.nn.softmax(scaled_sims, axis=col_dim)
    attention_scores = attention_percents @ v
with `row_dim = 0`, `col_dim = 1` in every construction and call in the
notebooks; the embedding below fixes those axes (so `swapaxes` is matrix
transpose and the softmax is row-wise).

Two complementary embeddings are developed:

  * `RModel`: a shape-indexed model over the real numbers (`Matrix (Fin m)
    (Fin n) ℝ`), used for the value-level claims about weights, softmax rows
    and masking.  `jax.nn.softmax` is embedded by its actual implementation:
    it subtracts the row maximum before exponentiating and normalizing.
    Floating point is idealized as exact real arithmetic.

  * `SModel`: a dynamically-shaped model (`Arr` = recorded shape plus a total
    entry function) in which every operation performs the shape checks that
    the JAX primitives perform at run time (`@` requires matching inner
    dimensions, `jnp.where` broadcasts its operands by the NumPy rules,
    `jnp.concatenate` requires a non-empty list with matching row counts) and
    returns `Except`.  This model settles the error-handling claims, which
    are about dynamic shape failures the Python code does or does not raise.
-/

namespace RModel

open Matrix

/-- `Finset.univ : Finset (Fin n)` is nonempty once `n ≠ 0`. -/
def finUnivNonempty (n : ℕ) [NeZero n] : (Finset.univ : Finset (Fin n)).Nonempty :=
  ⟨⟨0, Nat.pos_of_ne_zero (NeZero.ne n)⟩, Finset.mem_univ _⟩

/-- The maximum of a row, as computed by `jnp.max(x, axis, keepdims=True)`
inside `jax.nn.softmax`. -/
noncomputable def rowMax {n : ℕ} [NeZero n] (x : Fin n → ℝ) : ℝ :=
  Finset.univ.sup' (finUnivNonempty n) x

/-- One row of `jax.nn.softmax`: the implementation subtracts the row maximum
before exponentiating, then normalizes by the row sum. -/
noncomputable def softmaxRow {n : ℕ} [NeZero n] (x : Fin n → ℝ) : Fin n → ℝ :=
  fun i => Real.exp (x i - rowMax x) / ∑ j, Real.exp (x j - rowMax x)

/- ### The attention pipeline of `Attention.__call__` (multiheadattention.ipynb),
shared verbatim by `MaskedSelfAttention.__call__` (with `X_q = X_k = X_v`) and
by `SelfAttention.__call__` (additionally with `mask = None`).  Each local of
the Python function is lifted to a definition so the claims can refer to the
intermediates. -/

/-- `sims = q @ k.swapaxes(0, 1)` with `q = X_q @ W_q`, `k = X_k @ W_k`. -/
noncomputable def sims {d nq nk : ℕ} (W_q W_k : Matrix (Fin d) (Fin d) ℝ)
    (Xq : Matrix (Fin nq) (Fin d) ℝ) (Xk : Matrix (Fin nk) (Fin d) ℝ) :
    Matrix (Fin nq) (Fin nk) ℝ :=
  (Xq * W_q) * (Xk * W_k)ᵀ

/-- `scaled_sims = sims / jnp.sqrt(d_model)`. -/
noncomputable def scaled_sims {d nq nk : ℕ} (W_q W_k : Matrix (Fin d) (Fin d) ℝ)
    (Xq : Matrix (Fin nq) (Fin d) ℝ) (Xk : Matrix (Fin nk) (Fin d) ℝ) :
    Matrix (Fin nq) (Fin nk) ℝ :=
  fun i j => sims W_q W_k Xq Xk i j / Real.sqrt d

/-- `if mask is not None: scaled_sims = jnp.where(mask, -1e9, scaled_sims)`. -/
noncomputable def masked_sims {d nq nk : ℕ} (W_q W_k : Matrix (Fin d) (Fin d) ℝ)
    (Xq : Matrix (Fin nq) (Fin d) ℝ) (Xk : Matrix (Fin nk) (Fin d) ℝ)
    (mask : Option (Matrix (Fin nq) (Fin nk) Bool)) :
    Matrix (Fin nq) (Fin nk) ℝ :=
  match mask with
  | none => scaled_sims W_q W_k Xq Xk
  | some m => fun i j => if m i j then (-1e9 : ℝ) else scaled_sims W_q W_k Xq Xk i j

/-- `attention_percents = jax.nn.softmax(scaled_sims, axis=1)`. -/
noncomputable def attention_percents {d nq nk : ℕ} [NeZero nk]
    (W_q W_k : Matrix (Fin d) (Fin d) ℝ)
    (Xq : Matrix (Fin nq) (Fin d) ℝ) (Xk : Matrix (Fin nk) (Fin d) ℝ)
    (mask : Option (Matrix (Fin nq) (Fin nk) Bool)) :
    Matrix (Fin nq) (Fin nk) ℝ :=
  fun i => softmaxRow (masked_sims W_q W_k Xq Xk mask i)

/-- `attention_scores = attention_percents @ v` with `v = X_v @ W_v`:
the value returned by `Attention.__call__`. -/
noncomputable def attention_scores {d nq nk : ℕ} [NeZero nk]
    (W_q W_k W_v : Matrix (Fin d) (Fin d) ℝ)
    (Xq : Matrix (Fin nq) (Fin d) ℝ) (Xk Xv : Matrix (Fin nk) (Fin d) ℝ)
    (mask : Option (Matrix (Fin nq) (Fin nk) Bool)) :
    Matrix (Fin nq) (Fin d) ℝ :=
  attention_percents W_q W_k Xq Xk mask * (Xv * W_v)

/-- `MaskedSelfAttention.__call__ token_encodings mask`: the same pipeline with
all three sources equal to `token_encodings` and the mask present. -/
noncomputable def maskedSelfAttention_percents {d n : ℕ} [NeZero n]
    (W_q W_k : Matrix (Fin d) (Fin d) ℝ) (X : Matrix (Fin n) (Fin d) ℝ)
    (mask : Matrix (Fin n) (Fin n) Bool) : Matrix (Fin n) (Fin n) ℝ :=
  attention_percents W_q W_k X X (some mask)

noncomputable def maskedSelfAttention_scores {d n : ℕ} [NeZero n]
    (W_q W_k W_v : Matrix (Fin d) (Fin d) ℝ) (X : Matrix (Fin n) (Fin d) ℝ)
    (mask : Matrix (Fin n) (Fin n) Bool) : Matrix (Fin n) (Fin d) ℝ :=
  attention_scores W_q W_k W_v X X X (some mask)

/-- The causal mask of the notebook: `jnp.tril(jnp.ones((n, n))) == 0`, i.e.
`mask[i, j]` is true exactly when `j > i` (attention to the future forbidden). -/
def causalMask (n : ℕ) : Matrix (Fin n) (Fin n) Bool :=
  fun i j => decide ((i : ℕ) < (j : ℕ))

/- ### Constructor: all three weight matrices come from one key.

`Attention.__init__`, `SelfAttention.__init__` and `MaskedSelfAttention.__init__`
all read `key = rngs.params()` once and then evaluate
`jax.random.uniform(key, (d_model, d_model))` three times with that same key;
`jax.random.uniform` is a pure function of the key and the shape. -/

structure AttentionParams (d : ℕ) where
  W_q : Matrix (Fin d) (Fin d) ℝ
  W_k : Matrix (Fin d) (Fin d) ℝ
  W_v : Matrix (Fin d) (Fin d) ℝ

/-- The weight initialization of the three constructors: one key drawn from
`rngs`, `uniform` applied to it three times. -/
def attention_init {K : Type} (d : ℕ)
    (uniform : K → Matrix (Fin d) (Fin d) ℝ) (rngs_params : K) :
    AttentionParams d :=
  let key := rngs_params
  ⟨uniform key, uniform key, uniform key⟩

/- ### Spec-side definitions (written from the specification's words, for the
refinement claims). -/

/-- Written from the claim: `output = weights · V` where `Q = X_q·W_q`,
`K = X_k·W_k`, `V = X_v·W_v`, `S = Q·Kᵀ / sqrt d`, masked entries replaced by
`-1e9`, and `weights` the row-wise softmax of the result. -/
noncomputable def attention_compute_spec {d nq nk : ℕ} [NeZero nk]
    (W_q W_k W_v : Matrix (Fin d) (Fin d) ℝ)
    (Xq : Matrix (Fin nq) (Fin d) ℝ) (Xk Xv : Matrix (Fin nk) (Fin d) ℝ)
    (mask : Option (Matrix (Fin nq) (Fin nk) Bool)) :
    Matrix (Fin nq) (Fin d) ℝ :=
  let Q := Xq * W_q
  let K := Xk * W_k
  let V := Xv * W_v
  let S : Matrix (Fin nq) (Fin nk) ℝ := fun i j => (Q * Kᵀ) i j / Real.sqrt d
  let Sm : Matrix (Fin nq) (Fin nk) ℝ := fun i j =>
    match mask with
    | some m => if m i j then (-1e9 : ℝ) else S i j
    | none => S i j
  fun i j => ∑ l, softmaxRow (fun t => Sm i t) l * V l j

/-- Written from the spec's softmax sentence: for each query row `i`,
`weights[i,:] = exp(x − max x) / Σ exp(x − max x)`. -/
noncomputable def softmax_spec_formula {n : ℕ} [NeZero n]
    (x : Fin n → ℝ) (i : Fin n) : ℝ :=
  Real.exp (x i - Finset.univ.sup' (finUnivNonempty n) x) /
    ∑ j, Real.exp (x j - Finset.univ.sup' (finUnivNonempty n) x)

/-- The naive, unstabilized softmax `exp x / Σ exp x` the spec warns about. -/
noncomputable def softmax_naive {n : ℕ} (x : Fin n → ℝ) (i : Fin n) : ℝ :=
  Real.exp (x i) / ∑ j, Real.exp (x j)

end RModel

namespace SModel

/-- A 2-D `jax.Array` with its dynamic shape.  Entries are a total function;
positions outside the recorded shape are irrelevant junk that no checked
operation reads. -/
structure Arr where
  rows : ℕ
  cols : ℕ
  data : ℕ → ℕ → ℝ

/-- A 2-D boolean `jax.Array` (a mask). -/
structure BArr where
  rows : ℕ
  cols : ℕ
  data : ℕ → ℕ → Bool

/-- The run-time failures the JAX primitives used by the notebooks can raise:
`@` on incompatible inner dimensions, `jnp.where` on non-broadcastable
operands, `jnp.concatenate` on an empty list. -/
inductive ShapeErr where
  | dimMismatch : ShapeErr
  | broadcastFail : ShapeErr
  | emptyConcat : ShapeErr
deriving DecidableEq

/-- `A @ B`: requires the inner dimensions to agree, as `jnp.matmul` does. -/
noncomputable def matmul (A B : Arr) : Except ShapeErr Arr :=
  if A.cols = B.rows then
    .ok ⟨A.rows, B.cols, fun i j => ∑ l ∈ Finset.range A.cols, A.data i l * B.data l j⟩
  else .error .dimMismatch

/-- `k.swapaxes(0, 1)` on a 2-D array: transpose. -/
def tr (A : Arr) : Arr := ⟨A.cols, A.rows, fun i j => A.data j i⟩

/-- Elementwise division by a scalar (`sims / jnp.sqrt(d_model)`). -/
noncomputable def scaleDiv (A : Arr) (c : ℝ) : Arr :=
  ⟨A.rows, A.cols, fun i j => A.data i j / c⟩

/-- NumPy broadcast of one axis: a size-1 axis repeats its only index. -/
def bIdx (s i : ℕ) : ℕ := if s = 1 then 0 else i

/-- The broadcast result size of a pair of compatible axis sizes. -/
def bDim (s a : ℕ) : ℕ := if s = 1 then a else s

/-- `jnp.where(mask, c, A)`: the two operands are broadcast together by the
NumPy rule (per axis: equal sizes, or either size is 1); otherwise the call
raises. -/
noncomputable def whereB (m : BArr) (c : ℝ) (A : Arr) : Except ShapeErr Arr :=
  if (m.rows = A.rows ∨ m.rows = 1 ∨ A.rows = 1) ∧
     (m.cols = A.cols ∨ m.cols = 1 ∨ A.cols = 1) then
    .ok ⟨bDim m.rows A.rows, bDim m.cols A.cols, fun i j =>
      if m.data (bIdx m.rows i) (bIdx m.cols j) then c
      else A.data (bIdx A.rows i) (bIdx A.cols j)⟩
  else .error .broadcastFail

/-- The row maximum used inside `jax.nn.softmax` (over the first `n` entries
of a row; for `n = 0` the value is irrelevant junk). -/
noncomputable def rowMaxN (f : ℕ → ℝ) (n : ℕ) : ℝ :=
  ((List.range n).map f).foldr max (f 0)

/-- `jax.nn.softmax(A, axis=1)`: row-wise stabilized softmax; never raises and
preserves the shape. -/
noncomputable def softmaxAxis1 (A : Arr) : Arr :=
  ⟨A.rows, A.cols, fun i j =>
    Real.exp (A.data i j - rowMaxN (A.data i) A.cols) /
      ∑ l ∈ Finset.range A.cols, Real.exp (A.data i l - rowMaxN (A.data i) A.cols)⟩

/-- `if mask is not None: scaled_sims = jnp.where(mask, -1e9, scaled_sims)`. -/
noncomputable def maskStep (mask : Option BArr) (A : Arr) : Except ShapeErr Arr :=
  match mask with
  | none => .ok A
  | some m => whereB m (-1e9) A

/-- One attention head: `d_model` and the three projection matrices.  The
notebooks construct and call every head with the default axes
`row_dim = 0`, `col_dim = 1`, which this model fixes. -/
structure Attention where
  d_model : ℕ
  W_q : Arr
  W_k : Arr
  W_v : Arr

/-- `Attention.__call__(encodings_for_q, encodings_for_k, encodings_for_v,
mask)`, with each JAX primitive's run-time shape check made explicit; a raised
exception propagates, so a failing step aborts the call. -/
noncomputable def Attention.call (att : Attention) (Xq Xk Xv : Arr)
    (mask : Option BArr) : Except ShapeErr Arr :=
  match matmul Xq att.W_q with
  | .error e => .error e
  | .ok q =>
    match matmul Xk att.W_k with
    | .error e => .error e
    | .ok k =>
      match matmul Xv att.W_v with
      | .error e => .error e
      | .ok v =>
        match matmul q (tr k) with
        | .error e => .error e
        | .ok s =>
          match maskStep mask (scaleDiv s (Real.sqrt att.d_model)) with
          | .error e => .error e
          | .ok ms => matmul (softmaxAxis1 ms) v

/-- Horizontal append of two arrays (concatenation of one pair along axis 1). -/
def happend (A B : Arr) : Arr :=
  ⟨A.rows, A.cols + B.cols, fun i j =>
    if j < A.cols then A.data i j else B.data i (j - A.cols)⟩

/-- `jnp.concatenate(outputs, axis=1)`: raises on an empty list, requires all
row counts to agree, and lays the pieces out left to right in list order. -/
def concat1 : List Arr → Except ShapeErr Arr
  | [] => .error .emptyConcat
  | [A] => .ok A
  | A :: B :: rest =>
    match concat1 (B :: rest) with
    | .error e => .error e
    | .ok C => if A.rows = C.rows then .ok (happend A C) else .error .dimMismatch

/-- `MultiHeadAttention` owns its ordered list of heads (the notebooks always
use `col_dim = 1`, the concatenation axis fixed here). -/
structure MultiHeadAttention where
  heads : List Attention

/-- `[head(q, k, v) for head in self.heads]`: each head invoked with the same
three inputs and no mask, in construction order; an exception propagates. -/
noncomputable def headOutputs (hs : List Attention) (Xq Xk Xv : Arr) :
    Except ShapeErr (List Arr) :=
  match hs with
  | [] => .ok []
  | h :: rest =>
    match h.call Xq Xk Xv none with
    | .error e => .error e
    | .ok o =>
      match headOutputs rest Xq Xk Xv with
      | .error e => .error e
      | .ok os => .ok (o :: os)

/-- `MultiHeadAttention.__call__`: run all heads, then
`jnp.concatenate(outputs, axis=self.col_dim)`. -/
noncomputable def MultiHeadAttention.call (mha : MultiHeadAttention)
    (Xq Xk Xv : Arr) : Except ShapeErr Arr :=
  match headOutputs mha.heads Xq Xk Xv with
  | .error e => .error e
  | .ok outs => concat1 outs

/-- Whether a modelled call raised (`true`) or returned a value (`false`). -/
def errE : Except ShapeErr Arr → Bool
  | .error _ => true
  | .ok _ => false

/-- `Attention.__init__`: one key drawn from `rngs`, and
`jax.random.uniform(key, (d_model, d_model))` — a pure function of key and
shape — evaluated three times with that same key. -/
def Attention.init (d_model : ℕ) (uniform : ℕ → ℕ → Arr) (key : ℕ) : Attention :=
  ⟨d_model, uniform key d_model, uniform key d_model, uniform key d_model⟩

/-- `MultiHeadAttention.__init__`: `self.heads = [Attention(...) for _ in
range(num_heads)]` with no check on `num_heads`; each head's constructor draws
the next key from the shared `rngs` stream. -/
def MultiHeadAttention.init (d_model num_heads : ℕ) (uniform : ℕ → ℕ → Arr)
    (rngs_params : ℕ → ℕ) : MultiHeadAttention :=
  ⟨(List.range num_heads).map fun idx =>
    Attention.init d_model uniform (rngs_params idx)⟩

end SModel

/- ######################################################################
   Helper lemmas
   ###################################################################### -/

namespace RModel

theorem le_rowMax {n : ℕ} [NeZero n] (x : Fin n → ℝ) (i : Fin n) :
    x i ≤ rowMax x :=
  Finset.le_sup' x (Finset.mem_univ i)

theorem sumExp_pos {n : ℕ} [NeZero n] (x : Fin n → ℝ) :
    0 < ∑ j, Real.exp (x j - rowMax x) :=
  Finset.sum_pos (fun _ _ => Real.exp_pos _) (finUnivNonempty n)

theorem softmaxRow_pos {n : ℕ} [NeZero n] (x : Fin n → ℝ) (i : Fin n) :
    0 < softmaxRow x i :=
  div_pos (Real.exp_pos _) (sumExp_pos x)

theorem softmaxRow_sum {n : ℕ} [NeZero n] (x : Fin n → ℝ) :
    ∑ i, softmaxRow x i = 1 := by
  unfold softmaxRow
  rw [← Finset.sum_div]
  exact div_self (ne_of_gt (sumExp_pos x))

/-- Any softmax entry is bounded by the exponential of its gap to any other
coordinate of the row. -/
theorem softmaxRow_le_exp_sub {n : ℕ} [NeZero n] (x : Fin n → ℝ) (i j : Fin n) :
    softmaxRow x i ≤ Real.exp (x i - x j) := by
  unfold softmaxRow
  have hden : Real.exp (x j - rowMax x) ≤ ∑ l, Real.exp (x l - rowMax x) :=
    Finset.single_le_sum (fun l _ => le_of_lt (Real.exp_pos (x l - rowMax x)))
      (Finset.mem_univ j)
  have h1 : Real.exp (x i - rowMax x) / ∑ l, Real.exp (x l - rowMax x)
      ≤ Real.exp (x i - rowMax x) / Real.exp (x j - rowMax x) :=
    div_le_div_of_nonneg_left (le_of_lt (Real.exp_pos _)) (Real.exp_pos _) hden
  refine h1.trans (le_of_eq ?_)
  rw [← Real.exp_sub]
  ring_nf

/-- If the whole row holds one constant, softmax returns the uniform
distribution `1 / n`. -/
theorem softmaxRow_const {n : ℕ} [NeZero n] (x : Fin n → ℝ) (c : ℝ)
    (h : ∀ j, x j = c) (i : Fin n) : softmaxRow x i = 1 / (n : ℝ) := by
  have hx : x = fun _ => c := funext h
  subst hx
  have hM : rowMax (fun _ : Fin n => c) = c := Finset.sup'_const _ c
  unfold softmaxRow
  rw [hM]
  simp [Real.exp_zero, Finset.card_univ]

theorem exp_neg_twenty_lt : Real.exp (-20) < 1e-6 := by
  have h2 : (2 : ℝ) ≤ Real.exp 1 := by
    have := Real.exp_one_gt_d9
    linarith
  have hpow : (2 : ℝ) ^ (20 : ℕ) ≤ Real.exp 1 ^ (20 : ℕ) :=
    pow_le_pow_left₀ (by norm_num) h2 20
  have hexp20 : (1e6 : ℝ) < Real.exp 20 := by
    have he : Real.exp 1 ^ (20 : ℕ) = Real.exp 20 := by
      rw [← Real.exp_nat_mul]; norm_num
    have h20 : (1e6 : ℝ) < (2 : ℝ) ^ (20 : ℕ) := by norm_num
    calc (1e6 : ℝ) < (2 : ℝ) ^ (20 : ℕ) := h20
      _ ≤ Real.exp 1 ^ (20 : ℕ) := hpow
      _ = Real.exp 20 := he
  have hpos : (0 : ℝ) < 1e6 := by norm_num
  have hinv : (Real.exp 20)⁻¹ < (1e6 : ℝ)⁻¹ := inv_strictAnti₀ hpos hexp20
  rw [Real.exp_neg]
  calc (Real.exp 20)⁻¹ < (1e6 : ℝ)⁻¹ := hinv
    _ = 1e-6 := by norm_num

/-- A coordinate sitting at the mask sentinel `-1e9` gets softmax weight below
`1e-6` as soon as some coordinate of the row is at least `-1e9 + 20`. -/
theorem softmaxRow_sentinel_lt {n : ℕ} [NeZero n] (x : Fin n → ℝ) (i j : Fin n)
    (hi : x i = -1e9) (hj : -1e9 + 20 ≤ x j) : softmaxRow x i < 1e-6 := by
  have h1 : softmaxRow x i ≤ Real.exp (x i - x j) := softmaxRow_le_exp_sub x i j
  have h2 : Real.exp (x i - x j) ≤ Real.exp (-20) := by
    apply Real.exp_le_exp.mpr
    rw [hi]
    linarith
  calc softmaxRow x i ≤ Real.exp (x i - x j) := h1
    _ ≤ Real.exp (-20) := h2
    _ < 1e-6 := exp_neg_twenty_lt

/-- With zero weight matrices the masked scaled similarities are `0` at
unmasked positions (used to discharge score-bound hypotheses at witnesses). -/
theorem masked_sims_zeroW {d nq nk : ℕ}
    (Xq : Matrix (Fin nq) (Fin d) ℝ) (Xk : Matrix (Fin nk) (Fin d) ℝ)
    (m : Matrix (Fin nq) (Fin nk) Bool) (i : Fin nq) (j : Fin nk)
    (hm : m i j = false) :
    masked_sims (0 : Matrix (Fin d) (Fin d) ℝ) 0 Xq Xk (some m) i j = 0 := by
  unfold masked_sims scaled_sims sims
  simp [hm, Matrix.mul_zero]

end RModel

namespace SModel

theorem matmul_err (A B : Arr) (h : A.cols ≠ B.rows) :
    matmul A B = .error .dimMismatch := by
  unfold matmul
  rw [if_neg h]

theorem matmul_ok (A B : Arr) (h : A.cols = B.rows) :
    ∃ C, matmul A B = .ok C ∧ C.rows = A.rows ∧ C.cols = B.cols := by
  unfold matmul
  rw [if_pos h]
  exact ⟨_, rfl, rfl, rfl⟩

theorem whereB_err (m : BArr) (c : ℝ) (A : Arr)
    (h : ¬ ((m.rows = A.rows ∨ m.rows = 1 ∨ A.rows = 1) ∧
            (m.cols = A.cols ∨ m.cols = 1 ∨ A.cols = 1))) :
    whereB m c A = .error .broadcastFail := by
  unfold whereB
  rw [if_neg h]

theorem whereB_ok (m : BArr) (c : ℝ) (A : Arr)
    (h : (m.rows = A.rows ∨ m.rows = 1 ∨ A.rows = 1) ∧
         (m.cols = A.cols ∨ m.cols = 1 ∨ A.cols = 1)) :
    ∃ C, whereB m c A = .ok C ∧ C.rows = bDim m.rows A.rows ∧
      C.cols = bDim m.cols A.cols := by
  unfold whereB
  rw [if_pos h]
  exact ⟨_, rfl, rfl, rfl⟩

theorem bDim_eq_of_left (s a : ℕ) (h : s = a ∨ s = 1) : bDim s a = a := by
  unfold bDim
  rcases h with h | h
  · subst h
    split <;> omega
  · simp [h]

@[simp] theorem tr_rows (A : Arr) : (tr A).rows = A.cols := rfl

@[simp] theorem tr_cols (A : Arr) : (tr A).cols = A.rows := rfl

@[simp] theorem scaleDiv_rows (A : Arr) (c : ℝ) : (scaleDiv A c).rows = A.rows := rfl

@[simp] theorem scaleDiv_cols (A : Arr) (c : ℝ) : (scaleDiv A c).cols = A.cols := rfl

@[simp] theorem softmaxAxis1_rows (A : Arr) : (softmaxAxis1 A).rows = A.rows := rfl

@[simp] theorem softmaxAxis1_cols (A : Arr) : (softmaxAxis1 A).cols = A.cols := rfl

/-- `jnp.concatenate` on a non-empty list of arrays sharing shape `(n, d)`
succeeds and places piece `q`'s column `r` at output column `q·d + r`. -/
theorem concat1_ok (n d : ℕ) : ∀ (L : List Arr), L ≠ [] →
    (∀ A ∈ L, A.rows = n ∧ A.cols = d) →
    ∃ R, concat1 L = .ok R ∧ R.rows = n ∧ R.cols = L.length * d ∧
      ∀ (i q r : ℕ) (hq : q < L.length), r < d →
        R.data i (q * d + r) = (L.get ⟨q, hq⟩).data i r
  | [], hne, _ => absurd rfl hne
  | [A], _, hsh => by
    obtain ⟨hr, hc⟩ := hsh A (List.mem_singleton.mpr rfl)
    refine ⟨A, rfl, hr, by simpa using hc, ?_⟩
    intro i q r hq hr'
    have hq0 : q = 0 := by simp at hq; omega
    subst hq0
    simp
  | A :: B :: rest, _, hsh => by
    obtain ⟨C, hC, hCr, hCc, hCd⟩ :=
      concat1_ok n d (B :: rest) (List.cons_ne_nil _ _)
        (fun X hX => hsh X (List.mem_cons_of_mem _ hX))
    obtain ⟨hAr, hAc⟩ := hsh A (List.mem_cons_self _ _)
    have hrows : A.rows = C.rows := by rw [hAr, hCr]
    refine ⟨happend A C, ?_, ?_, ?_, ?_⟩
    · show concat1 (A :: B :: rest) = .ok (happend A C)
      unfold concat1
      rw [hC]
      simp [hrows]
    · exact hAr
    · show A.cols + C.cols = (B :: rest).length.succ * d
      rw [hAc, hCc, Nat.succ_mul, Nat.add_comm]
    · intro i q r hq hr'
      match q with
      | 0 =>
        show (happend A C).data i (0 * d + r) = A.data i r
        unfold happend
        simp only [Nat.zero_mul, Nat.zero_add]
        rw [if_pos (by omega : r < A.cols)]
      | Nat.succ q' =>
        have hq' : q' < (B :: rest).length := by
          simpa [Nat.succ_lt_succ_iff] using hq
        have hmul : (q' + 1) * d = q' * d + d := Nat.succ_mul _ _
        show (happend A C).data i ((q' + 1) * d + r) = _
        unfold happend
        simp only
        rw [if_neg (by rw [hmul, hAc]; omega), hAc]
        have hidx : (q' + 1) * d + r - d = q' * d + r := by rw [hmul]; omega
        rw [hidx, hCd i q' r hq' hr']
        rfl

end SModel

/- ######################################################################
   Claim theorems
   ###################################################################### -/

namespace RModel

/-- The stabilized softmax row coincides, in exact real arithmetic, with the
naive ratio `exp x / Σ exp x` (max-subtraction changes the computation, not
the value). -/
theorem softmaxRow_eq_naive {n : ℕ} [NeZero n] (x : Fin n → ℝ) (i : Fin n) :
    softmaxRow x i = softmax_naive x i := by
  unfold softmaxRow softmax_naive
  have hM : Real.exp (rowMax x) ≠ 0 := Real.exp_ne_zero _
  have hS : (∑ j, Real.exp (x j)) ≠ 0 :=
    ne_of_gt (Finset.sum_pos (fun _ _ => Real.exp_pos _) (finUnivNonempty n))
  simp only [Real.exp_sub]
  rw [← Finset.sum_div]
  rw [div_div_div_cancel_right₀]
  exact hM

/-- C1: `Attention.__call__` (and hence `MaskedSelfAttention.__call__`, which
runs the same pipeline on `X_q = X_k = X_v`) returns exactly `weights · V`,
where `Q = X_q·W_q`, `K = X_k·W_k`, `V = X_v·W_v`, the similarity matrix
`Q·Kᵀ` is divided by `sqrt d`, entries at mask-true positions are replaced by
`-1e9` before normalization, and `weights` is the row-wise softmax of the
result.  The output has shape `(n_q, d)` (the type of both sides), and the
operation is a pure function of the inputs and the head's weights. -/
theorem C1_attention_is_weights_dot_V {d nq nk : ℕ} [NeZero nk]
    (W_q W_k W_v : Matrix (Fin d) (Fin d) ℝ)
    (Xq : Matrix (Fin nq) (Fin d) ℝ) (Xk Xv : Matrix (Fin nk) (Fin d) ℝ)
    (mask : Option (Matrix (Fin nq) (Fin nk) Bool)) :
    attention_scores W_q W_k W_v Xq Xk Xv mask =
      attention_compute_spec W_q W_k W_v Xq Xk Xv mask := by
  funext i j
  unfold attention_scores attention_compute_spec attention_percents masked_sims
    scaled_sims sims
  cases mask with
  | none => simp [Matrix.mul_apply]
  | some m => simp [Matrix.mul_apply]

theorem C1_attention_is_weights_dot_V_witness :
    @attention_scores 1 1 1 _ 0 0 0 0 0 0 none =
      @attention_compute_spec 1 1 1 _ 0 0 0 0 0 0 none :=
  @C1_attention_is_weights_dot_V 1 1 1 _ 0 0 0 0 0 0 none

/-- C2 counterexample: the original claim demands that EVERY weight at a
mask-true position be `< 1e-6`, but on a fully masked row the weights are
uniform: with a 1×1 all-true mask the single masked weight equals 1. -/
theorem C2_counterexample :
    (fun (_ : Fin 1) (_ : Fin 1) => true) 0 0 = true ∧
    ¬ (@maskedSelfAttention_percents 2 1 _ 0 0 0
        (fun _ _ => true) 0 0 < 1e-6) := by
  refine ⟨rfl, ?_⟩
  have h : @maskedSelfAttention_percents 2 1 _ 0 0 0
      (fun _ _ => true) 0 0 = 1 / ((1 : ℕ) : ℝ) := by
    unfold maskedSelfAttention_percents attention_percents
    apply softmaxRow_const _ (-1e9)
    intro t
    unfold masked_sims
    simp
  rw [h]
  norm_num

/-- C2 (amended): every row of `attention_percents` sums to 1; and at a masked
position `(i, j)` the weight is `< 1e-6` provided the row has an unmasked
position `j'` whose masked scaled similarity is at least `-1e9 + 20` (without
such a floor — e.g. on a fully masked row — the bound fails, see the
counterexample). -/
theorem C2_amended_rowsum_and_masked_bound {d nq nk : ℕ} [NeZero nk] :
    (∀ (W_q W_k : Matrix (Fin d) (Fin d) ℝ) (Xq : Matrix (Fin nq) (Fin d) ℝ)
       (Xk : Matrix (Fin nk) (Fin d) ℝ)
       (mask : Option (Matrix (Fin nq) (Fin nk) Bool)) (i : Fin nq),
       ∑ j, attention_percents W_q W_k Xq Xk mask i j = 1) ∧
    (∀ (W_q W_k : Matrix (Fin d) (Fin d) ℝ) (Xq : Matrix (Fin nq) (Fin d) ℝ)
       (Xk : Matrix (Fin nk) (Fin d) ℝ) (m : Matrix (Fin nq) (Fin nk) Bool)
       (i : Fin nq) (j j' : Fin nk),
       m i j = true → m i j' = false →
       -1e9 + 20 ≤ masked_sims W_q W_k Xq Xk (some m) i j' →
       attention_percents W_q W_k Xq Xk (some m) i j < 1e-6) := by
  constructor
  · intro W_q W_k Xq Xk mask i
    exact softmaxRow_sum _
  · intro W_q W_k Xq Xk m i j j' hj _hj' hscore
    unfold attention_percents
    refine softmaxRow_sentinel_lt _ j j' ?_ hscore
    unfold masked_sims
    simp [hj]

theorem C2_amended_witness :
    (∑ j : Fin 2, @attention_percents 2 2 2 _
        0 0 0 0 none 0 j = 1) ∧
    @attention_percents 2 2 2 _ 0 0 0 0
      (some fun i j => i.val == 0 && j.val == 1) 0 1 < 1e-6 := by
  constructor
  · exact C2_amended_rowsum_and_masked_bound.1 0 0 0 0 none 0
  · refine C2_amended_rowsum_and_masked_bound.2 0 0 0 0 _ 0 1 0 rfl rfl ?_
    rw [masked_sims_zeroW _ _ _ 0 0 rfl]
    norm_num

/-- C7: on a fully masked query row every post-softmax weight equals `1 / n_k`
(the uniform distribution over the key positions) — defined behavior, since
after masking the whole row sits at the sentinel and softmax of a constant row
is uniform. -/
theorem C7_fully_masked_row_uniform {d n : ℕ} [NeZero n]
    (W_q W_k : Matrix (Fin d) (Fin d) ℝ) (X : Matrix (Fin n) (Fin d) ℝ)
    (mask : Matrix (Fin n) (Fin n) Bool) (i : Fin n)
    (h : ∀ j, mask i j = true) :
    ∀ j, maskedSelfAttention_percents W_q W_k X mask i j = 1 / (n : ℝ) := by
  intro j
  unfold maskedSelfAttention_percents attention_percents
  apply softmaxRow_const _ (-1e9) _ j
  intro t
  unfold masked_sims
  simp [h t]

theorem C7_fully_masked_row_uniform_witness :
    @maskedSelfAttention_percents 2 2 _ 0 0 0 (fun _ _ => true) 0 0
      = 1 / 2 := by
  have h := @C7_fully_masked_row_uniform 2 2 _ 0 0 0
    (fun _ _ => true) 0 (fun _ => rfl) 0
  simpa using h

/-- C9: the normalization computed by the implementation (`jax.nn.softmax`,
embedded by its stabilized implementation) is, for every row `i`,
`exp(S' − max S') / Σ exp(S' − max S')` with the row maximum subtracted
before exponentiation; in exact real arithmetic this stabilized form has the
same value as the naive `exp S' / Σ exp S'` (the two differ only in
floating-point behavior, which is where the stabilization matters). -/
theorem C9_softmax_is_stabilized {d nq nk : ℕ} [NeZero nk]
    (W_q W_k : Matrix (Fin d) (Fin d) ℝ) (Xq : Matrix (Fin nq) (Fin d) ℝ)
    (Xk : Matrix (Fin nk) (Fin d) ℝ)
    (mask : Option (Matrix (Fin nq) (Fin nk) Bool)) (i : Fin nq) (j : Fin nk) :
    attention_percents W_q W_k Xq Xk mask i j =
      softmax_spec_formula (masked_sims W_q W_k Xq Xk mask i) j ∧
    softmax_spec_formula (masked_sims W_q W_k Xq Xk mask i) j =
      softmax_naive (masked_sims W_q W_k Xq Xk mask i) j := by
  constructor
  · rfl
  · have h := softmaxRow_eq_naive (masked_sims W_q W_k Xq Xk mask i) j
    exact h

theorem C9_softmax_is_stabilized_witness :
    @attention_percents 1 1 1 _ 0 0 0 0 none 0 0 =
      softmax_spec_formula (@masked_sims 1 1 1
        0 0 0 0 none 0) 0 ∧
    softmax_spec_formula (@masked_sims 1 1 1
        0 0 0 0 none 0) 0 =
      softmax_naive (@masked_sims 1 1 1
        0 0 0 0 none 0) 0 :=
  @C9_softmax_is_stabilized 1 1 1 _ 0 0 0 0 none 0 0

/-- C10: every attention constructor (`Attention`, `SelfAttention`,
`MaskedSelfAttention` — all three have the identical lines) draws ONE key from
`rngs` and evaluates `jax.random.uniform(key, (d, d))` three times with that
same key, so `W_q = W_k = W_v` at construction; consequently on any
self-attention input the projected `q`, `k` and `v` coincide. -/
theorem C10_three_weights_one_key {K : Type} (d n : ℕ)
    (uniform : K → Matrix (Fin d) (Fin d) ℝ) (key : K)
    (X : Matrix (Fin n) (Fin d) ℝ) :
    (attention_init d uniform key).W_q = (attention_init d uniform key).W_k ∧
    (attention_init d uniform key).W_k = (attention_init d uniform key).W_v ∧
    X * (attention_init d uniform key).W_q = X * (attention_init d uniform key).W_k ∧
    X * (attention_init d uniform key).W_k = X * (attention_init d uniform key).W_v :=
  ⟨rfl, rfl, rfl, rfl⟩

end RModel

namespace SModel

/-- If the per-head list comprehension returned a list, it has one output per
head. -/
theorem headOutputs_length (Xq Xk Xv : Arr) :
    ∀ (hs : List Attention) (outs : List Arr),
      headOutputs hs Xq Xk Xv = .ok outs → outs.length = hs.length
  | [], outs, h => by
    unfold headOutputs at h
    cases h
    rfl
  | a :: rest, outs, h => by
    unfold headOutputs at h
    cases hc : a.call Xq Xk Xv none with
    | error e => rw [hc] at h; cases h
    | ok o =>
      rw [hc] at h
      cases hr : headOutputs rest Xq Xk Xv with
      | error e => rw [hr] at h; cases h
      | ok os =>
        rw [hr] at h
        cases h
        have := headOutputs_length Xq Xk Xv rest os hr
        simp [this]

/-- C3: a `MultiHeadAttention` constructed with `num_heads = 1` computes, on
every input triple, exactly what its single underlying head computes with the
same weights: the head list is `[Attention(...)]` built from the first key of
the shared rng stream, each head is invoked with no mask, and
`jnp.concatenate` of the single output returns it unchanged (no further
transformation and no reprojection). -/
theorem C3_single_head_identity (d : ℕ) (uniform : ℕ → ℕ → Arr)
    (rngs_params : ℕ → ℕ) (Xq Xk Xv : Arr) :
    (MultiHeadAttention.init d 1 uniform rngs_params).call Xq Xk Xv =
      (Attention.init d uniform (rngs_params 0)).call Xq Xk Xv none := by
  have hh : (MultiHeadAttention.init d 1 uniform rngs_params).heads =
      [Attention.init d uniform (rngs_params 0)] := by
    unfold MultiHeadAttention.init
    have h1 : List.range 1 = [0] := by decide
    rw [h1]
    rfl
  unfold MultiHeadAttention.call
  rw [hh]
  cases h : (Attention.init d uniform (rngs_params 0)).call Xq Xk Xv none with
  | error e => simp [headOutputs, h]
  | ok o => simp [headOutputs, h, concat1]

/-- C5 counterexample: `MultiHeadAttention.__init__` contains no check on
`num_heads` (it just builds `[Attention(...) for _ in range(num_heads)]`), so
with `num_heads = 0` construction succeeds and returns an instance with an
empty head list — a zero-head instance IS constructible and no `EmptyHeadSet`
failure exists at construction time. -/
theorem C5_counterexample :
    (MultiHeadAttention.init 2 0 (fun _ _ => ⟨0, 0, fun _ _ => 0⟩)
      (fun i => i)).heads = [] := by
  unfold MultiHeadAttention.init
  simp

/-- C5 (amended): constructing with `num_heads = 0` succeeds and yields an
instance whose head list is empty; the failure is deferred to call time,
where `jnp.concatenate` of the empty list of head outputs raises. -/
theorem C5_amended_zero_heads_constructible (d : ℕ) (uniform : ℕ → ℕ → Arr)
    (rngs_params : ℕ → ℕ) (Xq Xk Xv : Arr) :
    (MultiHeadAttention.init d 0 uniform rngs_params).heads = [] ∧
    (MultiHeadAttention.init d 0 uniform rngs_params).call Xq Xk Xv =
      .error .emptyConcat := by
  constructor
  · unfold MultiHeadAttention.init
    simp
  · unfold MultiHeadAttention.call MultiHeadAttention.init
    simp [headOutputs, concat1]

end SModel

namespace SModel

/-- C4 counterexample: the claim says a supplied mask whose shape differs
from `(n_q, n_k)` makes the call fail, but the code performs no such check:
`jnp.where` silently broadcasts the mask.  Here `n_q = n_k = 2` and the mask
has shape `(1, 2) ≠ (2, 2)`, yet the call returns an output. -/
theorem C4_counterexample :
    ((BArr.mk 1 2 fun _ _ => false).rows, (BArr.mk 1 2 fun _ _ => false).cols)
      ≠ (2, 2) ∧
    ∃ R, (Attention.mk 1 ⟨1, 1, fun _ _ => 0⟩ ⟨1, 1, fun _ _ => 0⟩
        ⟨1, 1, fun _ _ => 0⟩).call ⟨2, 1, fun _ _ => 0⟩ ⟨2, 1, fun _ _ => 0⟩
        ⟨2, 1, fun _ _ => 0⟩ (some (BArr.mk 1 2 fun _ _ => false)) = .ok R := by
  constructor
  · decide
  · exact ⟨_, rfl⟩

/-- C4 (amended): the call raises (via the underlying JAX primitives — there
is no dedicated `ShapeMismatch` check in the code) when the key/value sequence
lengths differ (shown with no mask, where the final `@` must fail) and when
any input's feature dimension differs from `d`; but a mask whose shape
differs from `(n_q, n_k)` is NOT rejected: if it is broadcast-compatible the
call succeeds with the mask broadcast, and it fails only when the mask is not
broadcast-compatible with `(n_q, n_k)`. -/
theorem C4_amended_shape_failures :
    (∀ (att : Attention) (Xq Xk Xv : Arr), Xk.rows ≠ Xv.rows →
      errE (att.call Xq Xk Xv none) = true) ∧
    (∀ (att : Attention) (Xq Xk Xv : Arr) (mask : Option BArr),
      att.W_q.rows = att.d_model → att.W_k.rows = att.d_model →
      att.W_v.rows = att.d_model →
      (Xq.cols ≠ att.d_model ∨ Xk.cols ≠ att.d_model ∨ Xv.cols ≠ att.d_model) →
      errE (att.call Xq Xk Xv mask) = true) ∧
    (∀ (att : Attention) (Xq Xk Xv : Arr) (m : BArr),
      att.W_q.rows = att.d_model → att.W_q.cols = att.d_model →
      att.W_k.rows = att.d_model → att.W_k.cols = att.d_model →
      att.W_v.rows = att.d_model →
      Xq.cols = att.d_model → Xk.cols = att.d_model → Xv.cols = att.d_model →
      ¬ ((m.rows = Xq.rows ∨ m.rows = 1 ∨ Xq.rows = 1) ∧
         (m.cols = Xk.rows ∨ m.cols = 1 ∨ Xk.rows = 1)) →
      errE (att.call Xq Xk Xv (some m)) = true) ∧
    (∀ (att : Attention) (Xq Xk Xv : Arr) (m : BArr),
      att.W_q.rows = att.d_model → att.W_q.cols = att.d_model →
      att.W_k.rows = att.d_model → att.W_k.cols = att.d_model →
      att.W_v.rows = att.d_model → att.W_v.cols = att.d_model →
      Xq.cols = att.d_model → Xk.cols = att.d_model → Xv.cols = att.d_model →
      Xv.rows = Xk.rows →
      (m.rows = Xq.rows ∨ m.rows = 1) → (m.cols = Xk.rows ∨ m.cols = 1) →
      errE (att.call Xq Xk Xv (some m)) = false) := by
  refine ⟨?_, ?_, ?_, ?_⟩
  · -- key/value sequence-length mismatch, no mask
    intro att Xq Xk Xv hkv
    by_cases h1 : Xq.cols = att.W_q.rows
    · obtain ⟨q, hq, hqr, hqc⟩ := matmul_ok _ _ h1
      by_cases h2 : Xk.cols = att.W_k.rows
      · obtain ⟨k, hk, hkr, hkc⟩ := matmul_ok _ _ h2
        by_cases h3 : Xv.cols = att.W_v.rows
        · obtain ⟨v, hv, hvr, hvc⟩ := matmul_ok _ _ h3
          by_cases h4 : q.cols = (tr k).rows
          · obtain ⟨s, hs, hsr, hsc⟩ := matmul_ok _ _ h4
            have hfin : (softmaxAxis1 (scaleDiv s (Real.sqrt att.d_model))).cols
                ≠ v.rows := by
              simp only [softmaxAxis1_cols, scaleDiv_cols]
              rw [hsc, tr_cols, hkr, hvr]
              exact hkv
            simp [Attention.call, hq, hk, hv, hs, maskStep,
              matmul_err _ _ hfin, errE]
          · simp [Attention.call, hq, hk, hv, matmul_err _ _ h4, errE]
        · simp [Attention.call, hq, hk, matmul_err _ _ h3, errE]
      · simp [Attention.call, hq, matmul_err _ _ h2, errE]
    · simp [Attention.call, matmul_err _ _ h1, errE]
  · -- some input's feature dimension differs from d
    intro att Xq Xk Xv mask hWq hWk hWv hbad
    rcases hbad with hb | hb | hb
    · have h1 : Xq.cols ≠ att.W_q.rows := by rw [hWq]; exact hb
      simp [Attention.call, matmul_err _ _ h1, errE]
    · by_cases h1 : Xq.cols = att.W_q.rows
      · obtain ⟨q, hq, _, _⟩ := matmul_ok _ _ h1
        have h2 : Xk.cols ≠ att.W_k.rows := by rw [hWk]; exact hb
        simp [Attention.call, hq, matmul_err _ _ h2, errE]
      · simp [Attention.call, matmul_err _ _ h1, errE]
    · by_cases h1 : Xq.cols = att.W_q.rows
      · obtain ⟨q, hq, _, _⟩ := matmul_ok _ _ h1
        by_cases h2 : Xk.cols = att.W_k.rows
        · obtain ⟨k, hk, _, _⟩ := matmul_ok _ _ h2
          have h3 : Xv.cols ≠ att.W_v.rows := by rw [hWv]; exact hb
          simp [Attention.call, hq, hk, matmul_err _ _ h3, errE]
        · simp [Attention.call, hq, matmul_err _ _ h2, errE]
      · simp [Attention.call, matmul_err _ _ h1, errE]
  · -- a mask that is not broadcast-compatible with (n_q, n_k)
    intro att Xq Xk Xv m hWqr hWqc hWkr hWkc hWvr hq hk hv hbc
    obtain ⟨q, hq1, hqr, hqc⟩ := matmul_ok Xq att.W_q (by rw [hq, hWqr])
    obtain ⟨k, hk1, hkr, hkc⟩ := matmul_ok Xk att.W_k (by rw [hk, hWkr])
    obtain ⟨v, hv1, hvr, hvc⟩ := matmul_ok Xv att.W_v (by rw [hv, hWvr])
    obtain ⟨s, hs1, hsr, hsc⟩ := matmul_ok q (tr k) (by
      rw [hqc, tr_rows, hkc, hWqc, hWkc])
    have hw : whereB m (-1e9) (scaleDiv s (Real.sqrt att.d_model)) =
        .error .broadcastFail := by
      apply whereB_err
      simp only [scaleDiv_rows, scaleDiv_cols]
      rw [hsr, hsc, hqr, tr_cols, hkr]
      exact hbc
    simp [Attention.call, hq1, hk1, hv1, hs1, maskStep, hw, errE]
  · -- a broadcast-compatible mask: the call returns normally
    intro att Xq Xk Xv m hWqr hWqc hWkr hWkc hWvr hWvc hq hk hv hkv hmr hmc
    obtain ⟨q, hq1, hqr, hqc⟩ := matmul_ok Xq att.W_q (by rw [hq, hWqr])
    obtain ⟨k, hk1, hkr, hkc⟩ := matmul_ok Xk att.W_k (by rw [hk, hWkr])
    obtain ⟨v, hv1, hvr, hvc⟩ := matmul_ok Xv att.W_v (by rw [hv, hWvr])
    obtain ⟨s, hs1, hsr, hsc⟩ := matmul_ok q (tr k) (by
      rw [hqc, tr_rows, hkc, hWqc, hWkc])
    have hscol : s.cols = Xk.rows := by rw [hsc, tr_cols, hkr]
    have hsrow : s.rows = Xq.rows := by rw [hsr, hqr]
    obtain ⟨w, hw1, hwr, hwc⟩ := whereB_ok m (-1e9)
      (scaleDiv s (Real.sqrt att.d_model)) (by
        constructor
        · simp only [scaleDiv_rows]
          rw [hsrow]
          rcases hmr with h | h
          · exact Or.inl h
          · exact Or.inr (Or.inl h)
        · simp only [scaleDiv_cols]
          rw [hscol]
          rcases hmc with h | h
          · exact Or.inl h
          · exact Or.inr (Or.inl h))
    have hfin : (softmaxAxis1 w).cols = v.rows := by
      simp only [softmaxAxis1_cols]
      rw [hwc, hvr, hkv]
      simp only [scaleDiv_cols]
      rw [hscol]
      exact bDim_eq_of_left _ _ hmc
    obtain ⟨R, hR, _, _⟩ := matmul_ok (softmaxAxis1 w) v hfin
    simp [Attention.call, hq1, hk1, hv1, hs1, maskStep, hw1, hR, errE]

theorem C4_amended_shape_failures_witness :
    errE ((Attention.mk 1 ⟨1, 1, fun _ _ => 0⟩ ⟨1, 1, fun _ _ => 0⟩
        ⟨1, 1, fun _ _ => 0⟩).call ⟨1, 1, fun _ _ => 0⟩ ⟨1, 1, fun _ _ => 0⟩
        ⟨2, 1, fun _ _ => 0⟩ none) = true ∧
    errE ((Attention.mk 1 ⟨1, 1, fun _ _ => 0⟩ ⟨1, 1, fun _ _ => 0⟩
        ⟨1, 1, fun _ _ => 0⟩).call ⟨1, 2, fun _ _ => 0⟩ ⟨1, 1, fun _ _ => 0⟩
        ⟨1, 1, fun _ _ => 0⟩ none) = true ∧
    errE ((Attention.mk 1 ⟨1, 1, fun _ _ => 0⟩ ⟨1, 1, fun _ _ => 0⟩
        ⟨1, 1, fun _ _ => 0⟩).call ⟨2, 1, fun _ _ => 0⟩ ⟨2, 1, fun _ _ => 0⟩
        ⟨2, 1, fun _ _ => 0⟩ (some (BArr.mk 3 3 fun _ _ => false))) = true ∧
    errE ((Attention.mk 1 ⟨1, 1, fun _ _ => 0⟩ ⟨1, 1, fun _ _ => 0⟩
        ⟨1, 1, fun _ _ => 0⟩).call ⟨2, 1, fun _ _ => 0⟩ ⟨2, 1, fun _ _ => 0⟩
        ⟨2, 1, fun _ _ => 0⟩ (some (BArr.mk 1 2 fun _ _ => false))) = false := by
  refine ⟨?_, ?_, ?_, ?_⟩
  · exact C4_amended_shape_failures.1 _ _ _ _ (by decide)
  · exact C4_amended_shape_failures.2.1 _ _ _ _ none rfl rfl rfl
      (Or.inl (by decide))
  · exact C4_amended_shape_failures.2.2.1 _ _ _ _ _ rfl rfl rfl rfl rfl
      rfl rfl rfl (by decide)
  · exact C4_amended_shape_failures.2.2.2 _ _ _ _ _ rfl rfl rfl rfl rfl
      rfl rfl rfl rfl rfl (Or.inr rfl) (Or.inl rfl)

end SModel

namespace SModel

/-- C8: when every head's output exists (the `outs` list produced by the head
loop), `MultiHeadAttention.__call__` returns the concatenation of the per-head
outputs along the feature axis in construction order: the result has shape
`(n_q, k·d)`, there is one output per head (`outs.length = heads.length`), and
output column `q·d + r` (for `q < k`, `r < d`) reads head `q`'s output at
column `r` — i.e. the columns are ordered `[O_1 | O_2 | ... | O_k]`. -/
theorem C8_concat_preserves_head_order (heads : List Attention)
    (Xq Xk Xv : Arr) (n d : ℕ) (outs : List Arr)
    (houts : headOutputs heads Xq Xk Xv = .ok outs)
    (hne : outs ≠ [])
    (hshape : ∀ A ∈ outs, A.rows = n ∧ A.cols = d) :
    ∃ R, (MultiHeadAttention.mk heads).call Xq Xk Xv = .ok R ∧
      R.rows = n ∧ R.cols = outs.length * d ∧ outs.length = heads.length ∧
      ∀ (i q r : ℕ) (hq : q < outs.length), r < d →
        R.data i (q * d + r) = (outs.get ⟨q, hq⟩).data i r := by
  obtain ⟨R, hR, hRr, hRc, hRd⟩ := concat1_ok n d outs hne hshape
  refine ⟨R, ?_, hRr, hRc, headOutputs_length Xq Xk Xv heads outs houts, hRd⟩
  unfold MultiHeadAttention.call
  rw [houts]
  exact hR

theorem C8_concat_preserves_head_order_witness :
    ∃ R, (MultiHeadAttention.mk [Attention.mk 1 ⟨1, 1, fun _ _ => 0⟩
        ⟨1, 1, fun _ _ => 0⟩ ⟨1, 1, fun _ _ => 0⟩,
      Attention.mk 1 ⟨1, 1, fun _ _ => 0⟩ ⟨1, 1, fun _ _ => 0⟩
        ⟨1, 1, fun _ _ => 0⟩]).call ⟨2, 1, fun _ _ => 0⟩ ⟨2, 1, fun _ _ => 0⟩
        ⟨2, 1, fun _ _ => 0⟩ = .ok R ∧ R.rows = 2 ∧ R.cols = 2 := by
  obtain ⟨R, hR, hr, hc, _, _⟩ :=
    C8_concat_preserves_head_order
      [Attention.mk 1 ⟨1, 1, fun _ _ => 0⟩ ⟨1, 1, fun _ _ => 0⟩
        ⟨1, 1, fun _ _ => 0⟩,
       Attention.mk 1 ⟨1, 1, fun _ _ => 0⟩ ⟨1, 1, fun _ _ => 0⟩
        ⟨1, 1, fun _ _ => 0⟩]
      ⟨2, 1, fun _ _ => 0⟩ ⟨2, 1, fun _ _ => 0⟩ ⟨2, 1, fun _ _ => 0⟩ 2 1 _
      rfl (by simp) (by
        intro A hA
        rcases List.mem_cons.mp hA with h | hA
        · subst h; exact ⟨rfl, rfl⟩
        · rcases List.mem_cons.mp hA with h | hA
          · subst h; exact ⟨rfl, rfl⟩
          · cases hA)
  exact ⟨R, hR, hr, by simpa using hc⟩

end SModel
